import Mathlib

/-!
Verification of the sample-to-HTML syntax-highlighting pipeline of the
rscarson.github.io repository.  The encoder under study is the function
`encode` of `src/js/help.js` (lines 139-196) together with its helper
`replaceAt` (lines 135-137); the registry plumbing is
`FormatterInstances.get`, `getAllFormattedSamples` and `getSampleHTML`
from the module that builds on `formatter.js` / `sample.js` (those two
files are not present in `src/`, so the pieces that live there are
modelled from the spec and marked as such).

Strings are embedded as `List Char`.  JavaScript's
`String.prototype.replace` with a string pattern replaces the first
occurrence, applying the GetSubstitution expansion to the replacement
string: `$$` inserts a dollar, `$&` the matched text, a dollar followed
by a backquote the portion before the match, `$'` the portion after it;
any other dollar is literal, as are `$n` forms, since a string pattern
has no capture groups.

Besides the two buffers of the source (`scan`, called `str` in the
source, and `result`), the embedded state carries ghost instrumentation
that does not influence the computation of the buffers: a `mask` marking
which scan positions are padding inserted by earlier matches, origin
maps giving, for each buffer position, the offset in the trimmed input
text that the character came from, and a log of match events.
-/

/-! ### Character classes of the rule patterns -/

def isWordCh (c : Char) : Bool :=
  c.isAlphanum || c == '_'

def isDataCh (c : Char) : Bool :=
  c.isAlphanum || c == '.' || c == '_'

def isOctCh (c : Char) : Bool :=
  c.isDigit && c.toNat ≤ 55

def notLineTerm (c : Char) : Bool :=
  !(c == '\n' || c == '\r')

/-- JavaScript whitespace recognised by `String.prototype.trim`
(ASCII part; the samples contain no exotic Unicode spaces). -/
def isJsSpace (c : Char) : Bool :=
  c == ' ' || c == '\t' || c == '\n' || c == '\r' || c == '\x0B' || c == '\x0C'

/-- Embedding of `str.trim()`. -/
def trim (l : List Char) : List Char :=
  ((l.dropWhile isJsSpace).reverse.dropWhile isJsSpace).reverse

/-! ### Matchers: one per regular expression of `encode`.

Each matcher takes the suffix of the scan buffer that starts at a
candidate position and returns the length of the (unique, greedy) match
of the pattern at that position, or `none`.  Every pattern of `encode`
requires at least one non-space character, so no pattern matches a
zero-length span. -/

/-- Pattern 1, line comments: the regex slash-slash-dot-star with flags gm.
Dot does not match line terminators. -/
def matchLineComment : List Char → Option Nat
  | '/' :: '/' :: rest => some (2 + (rest.takeWhile notLineTerm).length)
  | _ => none

/-- Distance to the first close-comment digraph, for the lazy dot-star of
pattern 2. -/
def findClose : List Char → Option Nat
  | '*' :: '/' :: _ => some 0
  | _ :: t => (findClose t).map (· + 1)
  | [] => none

/-- Pattern 2, block comments: slash-star, lazy dot-star, star-slash,
flags gms (dot also matches newlines; laziness picks the first close). -/
def matchBlockComment : List Char → Option Nat
  | '/' :: '*' :: rest => (findClose rest).map (fun k => 2 + k + 2)
  | _ => none

/-- Pattern 3, radix literals: `0`, an optional radix letter in
`xXbBoO`, then one or more alphanumerics.  Since the radix letters are
themselves alphanumeric, the greedy match is `0` followed by the maximal
nonempty alphanumeric run. -/
def matchRadix : List Char → Option Nat
  | '0' :: rest =>
    let n := (rest.takeWhile Char.isAlphanum).length
    if n = 0 then none else some (1 + n)
  | _ => none

/-- Pattern 4, decorators: `@` followed by one or more word characters. -/
def matchDecorator : List Char → Option Nat
  | '@' :: rest =>
    let n := (rest.takeWhile isWordCh).length
    if n = 0 then none else some (1 + n)
  | _ => none

/-- Pattern 5, function-call heads: a possibly empty word-character run
followed by an open parenthesis.  A shorter run cannot succeed where the
maximal one fails, because a word character never equals the
parenthesis. -/
def matchFunctionHead (l : List Char) : Option Nat :=
  let n := (l.takeWhile isWordCh).length
  match l.drop n with
  | '(' :: _ => some (n + 1)
  | _ => none

/-- Pattern 6, close parentheses. -/
def matchCloseParen : List Char → Option Nat
  | ')' :: _ => some 1
  | _ => none

/-- Consume an optional single character (a `?`-quantified literal). -/
def optCh (c : Char) (l : List Char) : Nat × List Char :=
  match l with
  | d :: t => if d == c then (1, t) else (0, l)
  | [] => (0, [])

/-- Pattern 7, data literals: optional double then single quote, one or
more characters of `[0-9A-Za-z._]`, optional `e` or `E`, optional sign,
a run of octal digits, then optional double and single quote.  All parts
after the mandatory core are optional, so the greedy first parse is the
match; dropping a leading quote option cannot rescue a failed core
(the quote character is not a core character), so no backtracking is
needed.  The `e`/`E` option is kept for fidelity although it can never
fire after a maximal core run (`e` is itself a core character). -/
def matchData (l : List Char) : Option Nat :=
  let (q1, l1) := optCh '"' l
  let (q2, l2) := optCh '\'' l1
  let n := (l2.takeWhile isDataCh).length
  if n = 0 then none else
    let l3 := l2.drop n
    let (e1, l4) := match l3 with
      | c :: t => if c == 'e' || c == 'E' then (1, t) else (0, l3)
      | [] => (0, l3)
    let (sg, l5) := match l4 with
      | c :: t => if c == '-' || c == '+' then (1, t) else (0, l4)
      | [] => (0, l4)
    let oc := (l5.takeWhile isOctCh).length
    let l6 := l5.drop oc
    let (q3, l7) := optCh '"' l6
    let (q4, _) := optCh '\'' l7
    some (q1 + q2 + n + e1 + sg + oc + q3 + q4)

/-! ### String search and replacement helpers -/

/-- Index of the first occurrence of `needle`, as found by
`String.prototype.replace` with a string pattern. -/
def findSubstr (needle : List Char) : List Char → Option Nat
  | [] => if needle.isPrefixOf ([] : List Char) then some 0 else none
  | hay@(_ :: t) =>
    if needle.isPrefixOf hay then some 0 else (findSubstr needle t).map (· + 1)

/-- GetSubstitution for a string pattern: expand the dollar escapes of
the replacement template.  `m` is the matched text, `b` the portion of
the searched string before the match, `a` the portion after it.  `$$`
yields a dollar, `$&` the match, a dollar followed by a backquote (coded
`Char.ofNat 96`) the before-portion, `$'` the after-portion; a dollar
followed by anything else is literal (with a string pattern there are no
capture groups, so `$n` and `$<` are also literal); after a literal
dollar, scanning continues at the following character. -/
def substExpand (m b a : List Char) : List Char → List Char
  | [] => []
  | c :: rest =>
    if c = '$' then
      match rest with
      | [] => ['$']
      | d :: rest' =>
        if d = '$' then '$' :: substExpand m b a rest'
        else if d = '&' then m ++ substExpand m b a rest'
        else if d = Char.ofNat 96 then b ++ substExpand m b a rest'
        else if d = '\'' then a ++ substExpand m b a rest'
        else '$' :: substExpand m b a (d :: rest')
    else c :: substExpand m b a rest

/-- The character can complete a dollar escape: dollar, ampersand,
backquote or single quote. -/
def isSubstEscape (d : Char) : Bool :=
  d == '$' || d == '&' || d == Char.ofNat 96 || d == '\''

/-- The replacement template contains no dollar escape, so its
GetSubstitution expansion is the template itself.  A dollar escape is a
dollar immediately followed by an escape character, and `substExpand`
advances one character at a time outside escapes, so the template is
escape-free exactly when no adjacent pair of its characters forms an
escape. -/
def substFree : List Char → Bool
  | [] => true
  | [_] => true
  | c :: d :: rest =>
    (!(c == '$' && isSubstEscape d)) && substFree (d :: rest)

/-- Embedding of `s.replace(search, replacement)` for a string `search`:
first occurrence, with GetSubstitution expansion of the replacement. -/
def replaceFirst (search repl l : List Char) : List Char :=
  match findSubstr search l with
  | none => l
  | some k =>
    l.take k
      ++ substExpand search (l.take k) (l.drop (k + search.length)) repl
      ++ l.drop (k + search.length)

/-- Embedding of `replaceAt` from `src/js/help.js`:
`str.substring(0, index) + str.substring(index).replace(search, replacement)`. -/
def replaceAt (str search : List Char) (index : Nat) (repl : List Char) : List Char :=
  str.take index ++ replaceFirst search repl (str.drop index)

/-! ### Rules and the encoder state -/

/-- One while-loop of `encode`: a pattern plus the fixed text placed
before and after the matched text in the replacement
(`replacement = pre ++ match ++ suf`). -/
structure Rule where
  pat : List Char → Option Nat
  pre : List Char
  suf : List Char

def spanOpen (cls : String) : List Char :=
  ("<span class=\"" ++ cls ++ "\">").data

def spanClose : List Char :=
  "</span>".data

/-- The seven rules of `encode`, in source order.  Rule 4 (function-call
heads) emits only the opening tag; rule 5 (close parentheses) emits only
the closing tag. -/
def legacyRules : List Rule :=
  [ ⟨matchLineComment, spanOpen "comment", spanClose⟩,
    ⟨matchBlockComment, spanOpen "comment", spanClose⟩,
    ⟨matchRadix, spanOpen "radix", spanClose⟩,
    ⟨matchDecorator, spanOpen "decorator", spanClose⟩,
    ⟨matchFunctionHead, spanOpen "function", []⟩,
    ⟨matchCloseParen, [], spanClose⟩,
    ⟨matchData, spanOpen "data", spanClose⟩ ]

/-- Ghost record of one processed match.  `maskSlice` is the mask over
the matched region of the scan buffer before the step; `consumed` is the
list of trimmed-input offsets of the unmasked characters of that region;
`covered` is the list of trimmed-input offsets of the characters that the
emitted wrapper was actually placed around in the result buffer (empty
when the result-side replacement found no occurrence); `replText` is
the replacement template built for the match, before dollar-escape
expansion; the `After` fields are snapshots of the buffers after the
step. -/
structure Event where
  rule : Nat
  index : Nat
  len : Nat
  maskSlice : List Bool
  consumed : List Nat
  covered : List Nat
  replText : List Char
  scanAfter : List Char
  maskAfter : List Bool
  resultAfter : List Char

/-- The encoder state: the two buffers of the source (`scan` is the
variable `str` of `encode`, progressively destroyed; `result` is
progressively annotated) plus ghost instrumentation. -/
structure EncState where
  scan : List Char
  result : List Char
  mask : List Bool
  scanOrig : List (Option Nat)
  resOrig : List (Option Nat)
  events : List Event

def initState (l : List Char) : EncState :=
  { scan := l
    result := l
    mask := List.replicate l.length false
    scanOrig := (List.range l.length).map some
    resOrig := (List.range l.length).map some
    events := [] }

/-- The matched text `match[0]`: `L` characters of the scan buffer from
offset `p`. -/
def stepText (st : EncState) (p L : Nat) : List Char :=
  (st.scan.drop p).take L

/-- The replacement string built by the rule's loop body. -/
def stepRepl (r : Rule) (st : EncState) (p L : Nat) : List Char :=
  r.pre ++ stepText st p L ++ r.suf

/-- Scan-buffer update of the loop body: `str = replaceAt(str, match[0],
match.index, ''.padStart(replacement.length, ' '))`. -/
def stepScan (r : Rule) (st : EncState) (p L : Nat) : List Char :=
  replaceAt st.scan (stepText st p L) p
    (List.replicate (stepRepl r st p L).length ' ')

/-- Result-buffer update of the loop body: `result = replaceAt(result,
match[0], match.index, replacement)`. -/
def stepResult (r : Rule) (st : EncState) (p L : Nat) : List Char :=
  replaceAt st.result (stepText st p L) p (stepRepl r st p L)

/-- Ghost: the mask spliced at the offset the scan-side `replace`
actually used. -/
def stepMask (r : Rule) (st : EncState) (p L : Nat) : List Bool :=
  match findSubstr (stepText st p L) (st.scan.drop p) with
  | none => st.mask
  | some k => st.mask.take (p + k)
      ++ List.replicate (stepRepl r st p L).length true
      ++ st.mask.drop (p + k + (stepText st p L).length)

/-- Ghost: scan-side origin map spliced in step with the scan buffer;
padding positions carry no origin. -/
def stepScanOrig (r : Rule) (st : EncState) (p L : Nat) : List (Option Nat) :=
  match findSubstr (stepText st p L) (st.scan.drop p) with
  | none => st.scanOrig
  | some k => st.scanOrig.take (p + k)
      ++ List.replicate (stepRepl r st p L).length none
      ++ st.scanOrig.drop (p + k + (stepText st p L).length)

/-- Ghost: result-side origin map.  When the replacement template has
no dollar escape, the insertion is literal: the wrapped occurrence keeps
its origins and the inserted markup has none; when a dollar escape would
be expanded, the inserted text is an unrelated mixture and carries no
origins. -/
def stepResOrig (r : Rule) (st : EncState) (p L : Nat) : List (Option Nat) :=
  match findSubstr (stepText st p L) (st.result.drop p) with
  | none => st.resOrig
  | some k => st.resOrig.take (p + k)
      ++ (if substFree (stepRepl r st p L) then
            List.replicate r.pre.length none
              ++ (st.resOrig.drop (p + k)).take (stepText st p L).length
              ++ List.replicate r.suf.length none
          else
            List.replicate
              (substExpand (stepText st p L) ((st.result.drop p).take k)
                ((st.result.drop p).drop (k + (stepText st p L).length))
                (stepRepl r st p L)).length
              none)
      ++ st.resOrig.drop (p + k + (stepText st p L).length)

/-- Ghost: the event logged for one processed match. -/
def stepEvent (ri : Nat) (r : Rule) (st : EncState) (p L : Nat) : Event :=
  { rule := ri
    index := p
    len := L
    maskSlice := (st.mask.drop p).take L
    consumed := ((st.scanOrig.drop p).take L).filterMap id
    covered :=
      match findSubstr (stepText st p L) (st.result.drop p) with
      | none => []
      | some k =>
        if substFree (stepRepl r st p L) then
          ((st.resOrig.drop (p + k)).take (stepText st p L).length).filterMap id
        else []
    replText := stepRepl r st p L
    scanAfter := stepScan r st p L
    maskAfter := stepMask r st p L
    resultAfter := stepResult r st p L }

/-- Process one match of `rule` at scan offset `p` with match length `L`:
the source's two `replaceAt` calls, with the ghost fields spliced at the
offset that the corresponding `replace` actually used.  The scan buffer
is overwritten with padding of the replacement's length
(`''.padStart(replacement.length, ' ')` in the source). -/
def stepMatch (ri : Nat) (r : Rule) (st : EncState) (p L : Nat) : EncState :=
  { scan := stepScan r st p L
    result := stepResult r st p L
    mask := stepMask r st p L
    scanOrig := stepScanOrig r st p L
    resOrig := stepResOrig r st p L
    events := st.events ++ [stepEvent ri r st p L] }

/-- First match of `pat` starting at or after position `p`: the scan of
`RegExp.exec` from `lastIndex`.  Returns the absolute match index and
the match length. -/
def scanPos (pat : List Char → Option Nat) : List Char → Nat → Option (Nat × Nat)
  | [], _ => none
  | l@(_ :: t), p =>
    match pat l with
    | some L => some (p, L)
    | none => scanPos pat t (p + 1)

def execFrom (pat : List Char → Option Nat) (s : List Char) (c : Nat) :
    Option (Nat × Nat) :=
  scanPos pat (s.drop c) c

/-- One `while ((match = regexp.exec(str)) !== null)` loop.  The cursor
is the regex object's `lastIndex`, persisting across iterations of the
loop even as `str` is reassigned.  Every match contains at least one
non-space character and is overwritten with spaces, so the number of
non-space characters of the scan buffer strictly decreases with each
iteration; `fuel` is initialised above that count and never runs out. -/
def ruleLoop (ri : Nat) (r : Rule) : Nat → Nat → EncState → EncState
  | 0, _, st => st
  | Nat.succ fuel, c, st =>
    match execFrom r.pat st.scan c with
    | none => st
    | some (p, L) => ruleLoop ri r fuel (p + L) (stepMatch ri r st p L)

def countNonSpace (l : List Char) : Nat :=
  l.countP (fun c => !(c == ' '))

def runRule (ri : Nat) (r : Rule) (st : EncState) : EncState :=
  ruleLoop ri r (countNonSpace st.scan + 1) 0 st

def runRules : Nat → List Rule → EncState → EncState
  | _, [], st => st
  | i, r :: rs, st => runRules (i + 1) rs (runRule i r st)

/-- The instrumented embedding of `encode`: trim the input, then run the
seven rule loops in order over the two buffers. -/
def encodeT (l : List Char) : EncState :=
  runRules 0 legacyRules (initState (trim l))

/-- Embedding of `encode` from `src/js/help.js`: the final result
buffer. -/
def encode (l : List Char) : List Char :=
  (encodeT l).result

/-! ### Derived checks used by the claims -/

/-- Number of (possibly overlapping) occurrences of `needle`. -/
def countOcc (needle : List Char) : List Char → Nat
  | [] => 0
  | l@(_ :: t) => (if needle.isPrefixOf l then 1 else 0) + countOcc needle t

def Event.maskFreeB (e : Event) : Bool :=
  e.maskSlice.all (fun b => !b)

/-- All processed matches consisted purely of unmasked (never previously
consumed) scan positions. -/
def maskFreeEvents (es : List Event) : Bool :=
  es.all Event.maskFreeB

/-- The match lay on unmasked positions and its replacement template
contains no dollar escape, so the result-side replace inserted the
template literally. -/
def Event.cleanB (e : Event) : Bool :=
  e.maskFreeB && substFree e.replText

/-- All processed matches were clean in the sense of `Event.cleanB`. -/
def cleanEvents (es : List Event) : Bool :=
  es.all Event.cleanB

/-- Does some later-rule event place its wrapper over a trimmed-input
offset that an earlier rule's match already consumed? -/
def crossRuleOverlap : List Event → Bool
  | [] => false
  | e :: es =>
    es.any (fun b => decide (e.rule < b.rule) && b.covered.any (e.consumed.contains ·))
      || crossRuleOverlap es

/-! ### Registry: `FormatterInstances`, samples (index module) -/

/-- Own property names of `Object.prototype` in a standard ECMAScript
runtime.  The `in` operator used by `FormatterInstances.get` consults
the prototype chain, so these names also test true in
`name in FormatterInstances`, and the lookup then returns the inherited
member instead of falling back to the lavendeux formatter. -/
def objectPrototypeNames : List String :=
  ["constructor", "hasOwnProperty", "isPrototypeOf", "propertyIsEnumerable",
   "toLocaleString", "toString", "valueOf", "__proto__",
   "__defineGetter__", "__defineSetter__", "__lookupGetter__", "__lookupSetter__"]

/-- The values reachable through `FormatterInstances[name]` for names
that satisfy `name in FormatterInstances`: the two formatter instances
and the lookup function itself (own properties), and the members
inherited from `Object.prototype` through the prototype chain. -/
inductive FIValue where
  | lavendeux
  | javascript
  | getFn
  | inheritedProp (name : String)
deriving DecidableEq

namespace FormatterInstances

/-- Embedding of `FormatterInstances.get`: `name => ((name in
FormatterInstances) ? FormatterInstances[name] : FormatterInstances.lavendeux)`.
After the assignment the object's own properties are `lavendeux`,
`javascript` and `get` itself; the `in` operator additionally finds the
properties inherited from `Object.prototype`, for which the indexing
returns the inherited member.  Only names outside both sets fall back to
the lavendeux instance. -/
def get (name : String) : FIValue :=
  if name = "lavendeux" then .lavendeux
  else if name = "javascript" then .javascript
  else if name = "get" then .getFn
  else if name ∈ objectPrototypeNames then .inheritedProp name
  else .lavendeux

end FormatterInstances

/-- Modelled from the spec: the dialect-B ("javascript") formatter of
`javascript.js`, which is not under `src/`.  The spec gives it the same
conceptual rule slots as dialect A minus the decorator sigil; its exact
patterns do not matter to any claim below, which only use that it is
some formatter with a `format` function. -/
def javascriptRules : List Rule :=
  legacyRules.eraseIdx 3

/-- Modelled from the spec: dialect-B `format`. -/
def javascriptFormat (l : List Char) : List Char :=
  (runRules 0 javascriptRules (initState (trim l))).result

/-- Format function carried by each registry value; the `get` own
property and the members inherited from `Object.prototype` are
functions, not formatters, and have none. -/
def FIValue.formatF : FIValue → Option (List Char → List Char)
  | .lavendeux => some encode
  | .javascript => some javascriptFormat
  | .getFn => none
  | .inheritedProp _ => none

/-- Modelled from the spec: a Sample record of `sample.js` (not under
`src/`): a display name, the declared formatter id and the raw text. -/
structure JSONSample where
  name : String
  formatter : String
  text : String

/-- Modelled from the spec: `JSONSample.toHTML(formatter)` renders the
sample's text through the given formatter's `format` ("renderAll maps
each Sample through its resolved Formatter's format").  The value
resolved for the name "get" is not a formatter; the empty result in that
case is a modelling artifact never relied upon. -/
def JSONSample.toHTML (s : JSONSample) (v : FIValue) : List Char :=
  match v.formatF with
  | some f => f s.text.data
  | none => []

/-- Embedding of `getAllFormattedSamples`, parameterised by the sample
list (the registry's `samples.json` is data, not code under `src/`):
`getAllSamples().map(s => s.toHTML(FormatterInstances.get(s.formatter)))`. -/
def getAllFormattedSamples (samples : List JSONSample) : List (List Char) :=
  samples.map (fun s => s.toHTML (FormatterInstances.get s.formatter))

/-- Embedding of `getSampleHTML`: `getAllFormattedSamples().join('\n')`. -/
def getSampleHTML (samples : List JSONSample) : List Char :=
  List.intercalate ['\n'] (getAllFormattedSamples samples)

/-- Modelled from the spec: HTML escaping, named by the contract
sentence "on no rule match anywhere, returns the (HTML-escaped) input
unchanged".  No escaping routine exists in `src/js/help.js`; this is the
standard escape of the four special characters, defined only to compare
the spec's words against the code's behaviour. -/
def htmlEscape : List Char → List Char
  | [] => []
  | c :: t =>
    (if c = '&' then "&amp;".data
     else if c = '<' then "&lt;".data
     else if c = '>' then "&gt;".data
     else if c = '"' then "&quot;".data
     else [c]) ++ htmlEscape t

/-! ### Synchronization relations (specification-side) -/

/-- Position-wise synchronization of the scan buffer, its mask and
origin map, the result buffer and its origin map: at unmasked positions
the two buffers hold the same character with the same origin; at masked
(padding) positions the scan origin is gone and the buffers are
unconstrained. -/
inductive SyncL :
    List Char → List Bool → List (Option Nat) → List Char → List (Option Nat) → Prop where
  | nil : SyncL [] [] [] [] []
  | keep (c : Char) (o : Option Nat) {s : List Char} {m : List Bool}
      {so : List (Option Nat)} {r : List Char} {ro : List (Option Nat)} :
      SyncL s m so r ro →
      SyncL (c :: s) (false :: m) (o :: so) (c :: r) (o :: ro)
  | pad (c d : Char) (o : Option Nat) {s : List Char} {m : List Bool}
      {so : List (Option Nat)} {r : List Char} {ro : List (Option Nat)} :
      SyncL s m so r ro →
      SyncL (c :: s) (true :: m) (none :: so) (d :: r) (o :: ro)

/-- The observable part of the synchronization invariant: the buffers
have equal length and identical content at every unmasked offset. -/
def SyncP (s : List Char) (m : List Bool) (r : List Char) : Prop :=
  s.length = r.length ∧ ∀ i : Nat, m.getD i false = false → s.getD i ' ' = r.getD i ' '

/-- The encoder invariant, maintained while every processed match stays
clear of masked padding: the five lists are synchronized, the origins
still present in the scan buffer are distinct and disjoint from
everything already consumed, wrappers were always placed over exactly
the origins their match consumed (hence spans of distinct matches never
overlap), and every logged buffer snapshot is synchronized. -/
structure EncInv (st : EncState) : Prop where
  sync : SyncL st.scan st.mask st.scanOrig st.result st.resOrig
  nodup : (st.scanOrig.filterMap id).Nodup
  fresh : ∀ e ∈ st.events, ∀ x ∈ st.scanOrig.filterMap id, x ∉ e.consumed
  pair : st.events.Pairwise (fun a b => ∀ x ∈ b.covered, x ∉ a.consumed)
  covcon : ∀ e ∈ st.events, e.covered = e.consumed
  snap : ∀ e ∈ st.events, SyncP e.scanAfter e.maskAfter e.resultAfter

/-! ## Theorems -/

/-! ### Prefix, search and replacement lemmas -/

theorem isPrefixOf_append (l t : List Char) : l.isPrefixOf (l ++ t) = true := by
  induction l with
  | nil => simp [List.isPrefixOf]
  | cons a l ih => simp [List.isPrefixOf, ih]

theorem take_isPrefixOf (l : List Char) (n : Nat) : (l.take n).isPrefixOf l = true := by
  nth_rewrite 2 [(List.take_append_drop n l).symm]
  exact isPrefixOf_append _ _

theorem findSubstr_of_isPrefixOf {needle hay : List Char}
    (h : needle.isPrefixOf hay = true) : findSubstr needle hay = some 0 := by
  cases hay <;> simp [findSubstr, h]

theorem substExpand_of_substFree (m b a : List Char) :
    ∀ l : List Char, substFree l = true → substExpand m b a l = l := by
  intro l
  induction l with
  | nil => intro _; rfl
  | cons c rest ih =>
    intro h
    cases rest with
    | nil =>
      by_cases hc : c = '$'
      · subst hc; simp [substExpand]
      · simp [substExpand, hc]
    | cons d rest' =>
      simp only [substFree, Bool.and_eq_true, Bool.not_eq_true'] at h
      obtain ⟨h1, h2⟩ := h
      have ihr := ih h2
      by_cases hc : c = '$'
      · subst hc
        simp only [beq_self_eq_true, Bool.true_and] at h1
        unfold isSubstEscape at h1
        simp only [Bool.or_eq_false_iff, beq_eq_false_iff_ne] at h1
        obtain ⟨⟨⟨hd1, hd2⟩, hd3⟩, hd4⟩ := h1
        simp [substExpand, hd1, hd2, hd3, hd4, ihr]
      · simp [substExpand, hc, ihr]

theorem substFree_of_no_dollar :
    ∀ l : List Char, (∀ c ∈ l, c ≠ '$') → substFree l = true := by
  intro l
  induction l with
  | nil => intro _; rfl
  | cons c rest ih =>
    intro h
    cases rest with
    | nil => rfl
    | cons d rest' =>
      simp only [substFree, Bool.and_eq_true, Bool.not_eq_true']
      constructor
      · have hc : (c == '$') = false :=
          beq_eq_false_iff_ne.mpr (h c (List.mem_cons_self _ _))
        simp [hc]
      · exact ih (fun x hx => h x (List.mem_cons_of_mem _ hx))

theorem substFree_replicate_space (n : Nat) :
    substFree (List.replicate n ' ') = true := by
  apply substFree_of_no_dollar
  intro c hc
  rw [List.eq_of_mem_replicate hc]
  decide

theorem replaceFirst_of_isPrefixOf {search repl l : List Char}
    (h : search.isPrefixOf l = true) (hs : substFree repl = true) :
    replaceFirst search repl l = repl ++ l.drop search.length := by
  simp [replaceFirst, findSubstr_of_isPrefixOf h,
    substExpand_of_substFree _ _ _ repl hs]

theorem take_eq_take_of_min {α : Type} {x : List α} {L tl : Nat}
    (h : min L x.length = tl) : x.take L = x.take tl := by
  have htl : tl ≤ x.length := by omega
  rw [List.take_eq_take, h, Nat.min_eq_left htl]

theorem filterMap_id_replicate_none (n : Nat) :
    (List.replicate n (none : Option Nat)).filterMap id = [] := by
  induction n with
  | zero => rfl
  | succ n ih => simp [List.replicate_succ, ih]

/-! ### Lemmas about the synchronization relation -/

theorem SyncL.lengths {s : List Char} {m : List Bool} {so : List (Option Nat)}
    {r : List Char} {ro : List (Option Nat)} (h : SyncL s m so r ro) :
    s.length = m.length ∧ s.length = so.length ∧ s.length = r.length ∧
      r.length = ro.length := by
  induction h with
  | nil => simp
  | keep c o h ih =>
    obtain ⟨h1, h2, h3, h4⟩ := ih
    simp only [List.length_cons]
    omega
  | pad c d o h ih =>
    obtain ⟨h1, h2, h3, h4⟩ := ih
    simp only [List.length_cons]
    omega

theorem SyncL.take {s : List Char} {m : List Bool} {so : List (Option Nat)}
    {r : List Char} {ro : List (Option Nat)} (h : SyncL s m so r ro) :
    ∀ n : Nat, SyncL (s.take n) (m.take n) (so.take n) (r.take n) (ro.take n) := by
  induction h with
  | nil => intro n; simpa using SyncL.nil
  | keep c o h ih =>
    intro n
    cases n with
    | zero => simpa using SyncL.nil
    | succ n => simpa using SyncL.keep c o (ih n)
  | pad c d o h ih =>
    intro n
    cases n with
    | zero => simpa using SyncL.nil
    | succ n => simpa using SyncL.pad c d o (ih n)

theorem SyncL.drop {s : List Char} {m : List Bool} {so : List (Option Nat)}
    {r : List Char} {ro : List (Option Nat)} (h : SyncL s m so r ro) :
    ∀ n : Nat, SyncL (s.drop n) (m.drop n) (so.drop n) (r.drop n) (ro.drop n) := by
  induction h with
  | nil => intro n; simpa using SyncL.nil
  | keep c o h ih =>
    intro n
    cases n with
    | zero => simpa using SyncL.keep c o (ih 0)
    | succ n => simpa using ih n
  | pad c d o h ih =>
    intro n
    cases n with
    | zero => simpa using SyncL.pad c d o (ih 0)
    | succ n => simpa using ih n

theorem SyncL.append {s1 : List Char} {m1 : List Bool} {so1 : List (Option Nat)}
    {r1 : List Char} {ro1 : List (Option Nat)} {s2 : List Char} {m2 : List Bool}
    {so2 : List (Option Nat)} {r2 : List Char} {ro2 : List (Option Nat)}
    (h1 : SyncL s1 m1 so1 r1 ro1) (h2 : SyncL s2 m2 so2 r2 ro2) :
    SyncL (s1 ++ s2) (m1 ++ m2) (so1 ++ so2) (r1 ++ r2) (ro1 ++ ro2) := by
  induction h1 with
  | nil => simpa using h2
  | keep c o h ih => simpa using SyncL.keep c o ih
  | pad c d o h ih => simpa using SyncL.pad c d o ih

theorem SyncL.eq_of_allFalse {s : List Char} {m : List Bool} {so : List (Option Nat)}
    {r : List Char} {ro : List (Option Nat)} (h : SyncL s m so r ro)
    (hf : ∀ b ∈ m, b = false) : s = r ∧ so = ro := by
  induction h with
  | nil => exact ⟨rfl, rfl⟩
  | keep c o h ih =>
    have h' := ih (fun b hb => hf b (List.mem_cons_of_mem _ hb))
    exact ⟨by rw [h'.1], by rw [h'.2]⟩
  | pad c d o h ih =>
    exact absurd (hf true (List.mem_cons_self _ _)) (by simp)

theorem syncL_masked : ∀ (n : Nat) (xs ys : List Char) (os : List (Option Nat)),
    xs.length = n → ys.length = n → os.length = n →
    SyncL xs (List.replicate n true) (List.replicate n none) ys os := by
  intro n
  induction n with
  | zero =>
    intro xs ys os hx hy ho
    rw [List.length_eq_zero] at hx hy ho
    subst hx; subst hy; subst ho
    exact SyncL.nil
  | succ n ih =>
    intro xs ys os hx hy ho
    cases xs with
    | nil => simp at hx
    | cons x xs =>
      cases ys with
      | nil => simp at hy
      | cons y ys =>
        cases os with
        | nil => simp at ho
        | cons o os =>
          rw [List.replicate_succ, List.replicate_succ]
          exact SyncL.pad x y o (ih xs ys os (by simp at hx; omega)
            (by simp at hy; omega) (by simp at ho; omega))

theorem syncL_init : ∀ (l : List Char) (os : List (Option Nat)),
    os.length = l.length →
    SyncL l (List.replicate l.length false) os l os := by
  intro l
  induction l with
  | nil =>
    intro os ho
    simp only [List.length_nil, List.length_eq_zero] at ho
    subst ho
    exact SyncL.nil
  | cons c l ih =>
    intro os ho
    cases os with
    | nil => simp at ho
    | cons o os =>
      rw [List.length_cons, List.replicate_succ]
      exact SyncL.keep c o (ih os (by simp at ho; omega))

theorem SyncL.getD_eq {s : List Char} {m : List Bool} {so : List (Option Nat)}
    {r : List Char} {ro : List (Option Nat)} (h : SyncL s m so r ro) :
    ∀ i : Nat, m.getD i false = false → s.getD i ' ' = r.getD i ' ' := by
  induction h with
  | nil => intro i _; rfl
  | keep c o h ih =>
    intro i hm
    cases i with
    | zero => rfl
    | succ i => simpa using ih i (by simpa using hm)
  | pad c d o h ih =>
    intro i hm
    cases i with
    | zero => simp at hm
    | succ i => simpa using ih i (by simpa using hm)

theorem SyncL.toSyncP {s : List Char} {m : List Bool} {so : List (Option Nat)}
    {r : List Char} {ro : List (Option Nat)} (h : SyncL s m so r ro) :
    SyncP s m r :=
  ⟨h.lengths.2.2.1, h.getD_eq⟩

theorem syncL_slice {s : List Char} {m : List Bool} {so : List (Option Nat)}
    {r : List Char} {ro : List (Option Nat)} (h : SyncL s m so r ro) (p L : Nat)
    (hmf : ∀ b ∈ (m.drop p).take L, b = false) :
    (s.drop p).take L = (r.drop p).take L ∧
      (so.drop p).take L = (ro.drop p).take L :=
  ((h.drop p).take L).eq_of_allFalse hmf

/-! ### Splice form of one step -/

theorem drop_drop_comm {α : Type} (l : List α) (p n : Nat) :
    (l.drop p).drop n = l.drop (p + n) := by
  rw [List.drop_drop, Nat.add_comm]

theorem findSubstr_stepText_scan (st : EncState) (p L : Nat) :
    findSubstr (stepText st p L) (st.scan.drop p) = some 0 :=
  findSubstr_of_isPrefixOf (take_isPrefixOf _ _)

theorem stepScan_eq (r : Rule) (st : EncState) (p L : Nat) :
    stepScan r st p L =
      st.scan.take p ++ List.replicate (stepRepl r st p L).length ' '
        ++ st.scan.drop (p + (stepText st p L).length) := by
  have h : (stepText st p L).isPrefixOf (st.scan.drop p) = true :=
    take_isPrefixOf _ _
  unfold stepScan replaceAt
  rw [replaceFirst_of_isPrefixOf h (substFree_replicate_space _), drop_drop_comm,
    List.append_assoc]

theorem stepMask_eq (r : Rule) (st : EncState) (p L : Nat) :
    stepMask r st p L =
      st.mask.take p ++ List.replicate (stepRepl r st p L).length true
        ++ st.mask.drop (p + (stepText st p L).length) := by
  unfold stepMask
  simp only [findSubstr_stepText_scan, Nat.add_zero]

theorem stepScanOrig_eq (r : Rule) (st : EncState) (p L : Nat) :
    stepScanOrig r st p L =
      st.scanOrig.take p ++ List.replicate (stepRepl r st p L).length none
        ++ st.scanOrig.drop (p + (stepText st p L).length) := by
  unfold stepScanOrig
  simp only [findSubstr_stepText_scan, Nat.add_zero]

theorem stepResult_eq (r : Rule) (st : EncState) (p L : Nat)
    (h : (stepText st p L).isPrefixOf (st.result.drop p) = true)
    (hs : substFree (stepRepl r st p L) = true) :
    stepResult r st p L =
      st.result.take p ++ stepRepl r st p L
        ++ st.result.drop (p + (stepText st p L).length) := by
  unfold stepResult replaceAt
  rw [replaceFirst_of_isPrefixOf h hs, drop_drop_comm, List.append_assoc]

theorem stepResOrig_eq (r : Rule) (st : EncState) (p L : Nat)
    (h : findSubstr (stepText st p L) (st.result.drop p) = some 0)
    (hs : substFree (stepRepl r st p L) = true) :
    stepResOrig r st p L =
      st.resOrig.take p
        ++ (List.replicate r.pre.length none
            ++ (st.resOrig.drop p).take (stepText st p L).length
            ++ List.replicate r.suf.length none)
        ++ st.resOrig.drop (p + (stepText st p L).length) := by
  unfold stepResOrig
  simp only [h, hs, eq_self_iff_true, if_true, Nat.add_zero]

theorem stepEvent_covered_eq (ri : Nat) (r : Rule) (st : EncState) (p L : Nat)
    (h : findSubstr (stepText st p L) (st.result.drop p) = some 0)
    (hs : substFree (stepRepl r st p L) = true) :
    (stepEvent ri r st p L).covered =
      ((st.resOrig.drop p).take (stepText st p L).length).filterMap id := by
  unfold stepEvent
  simp only [h, hs, eq_self_iff_true, if_true, Nat.add_zero]

/-! ### One step preserves the invariant -/

theorem stepMatch_inv {ri : Nat} {r : Rule} {st : EncState} {p L : Nat}
    (hI : EncInv st)
    (hmf : ∀ b ∈ (st.mask.drop p).take L, b = false)
    (hsub : substFree (stepRepl r st p L) = true) :
    EncInv (stepMatch ri r st p L) := by
  obtain ⟨hlm, hlso, hlr, hlro⟩ := hI.sync.lengths
  have hslice := syncL_slice hI.sync p L hmf
  have htl : (stepText st p L).length = min L (st.scan.length - p) := by
    simp [stepText]
  have htl_le : (stepText st p L).length ≤ st.scan.length - p := by omega
  have hro_len : st.resOrig.length = st.scan.length := by omega
  have hpr : (stepText st p L).isPrefixOf (st.result.drop p) = true := by
    have h1 : stepText st p L = (st.result.drop p).take L := hslice.1
    rw [h1]
    exact take_isPrefixOf _ _
  have hkr : findSubstr (stepText st p L) (st.result.drop p) = some 0 :=
    findSubstr_of_isPrefixOf hpr
  have hso_take : (st.scanOrig.drop p).take L
      = (st.scanOrig.drop p).take (stepText st p L).length := by
    apply take_eq_take_of_min
    rw [List.length_drop, ← hlso]
    omega
  have hro_take : (st.resOrig.drop p).take L
      = (st.resOrig.drop p).take (stepText st p L).length := by
    apply take_eq_take_of_min
    rw [List.length_drop, hro_len]
    omega
  have hslice_o : (st.scanOrig.drop p).take (stepText st p L).length
      = (st.resOrig.drop p).take (stepText st p L).length := by
    rw [← hso_take, ← hro_take]
    exact hslice.2
  have hdecomp : st.scanOrig
      = st.scanOrig.take p ++ (st.scanOrig.drop p).take (stepText st p L).length
        ++ st.scanOrig.drop (p + (stepText st p L).length) := by
    rw [List.append_assoc]
    conv_lhs => rw [← List.take_append_drop p st.scanOrig]
    congr 1
    rw [← drop_drop_comm]
    exact (List.take_append_drop _ _).symm
  have hnodup3 : ((st.scanOrig.take p).filterMap id
      ++ (((st.scanOrig.drop p).take (stepText st p L).length).filterMap id
        ++ (st.scanOrig.drop (p + (stepText st p L).length)).filterMap id)).Nodup := by
    have h0 := hI.nodup
    rw [hdecomp, List.filterMap_append, List.filterMap_append,
      List.append_assoc] at h0
    exact h0
  obtain ⟨hndA, hnd23, hdisjA⟩ := List.nodup_append.mp hnodup3
  obtain ⟨hndB, hndC, hdisjBC⟩ := List.nodup_append.mp hnd23
  -- the new state's five lists are synchronized
  have hsync' : SyncL (stepScan r st p L) (stepMask r st p L) (stepScanOrig r st p L)
      (stepResult r st p L) (stepResOrig r st p L) := by
    rw [stepScan_eq, stepMask_eq, stepScanOrig_eq, stepResult_eq r st p L hpr hsub,
      stepResOrig_eq r st p L hkr hsub]
    refine SyncL.append (SyncL.append (hI.sync.take p) ?_)
      (hI.sync.drop (p + (stepText st p L).length))
    refine syncL_masked (stepRepl r st p L).length _ _ _ (by simp) rfl ?_
    simp only [List.length_append, List.length_replicate, List.length_take,
      List.length_drop, hro_len, stepRepl]
    omega
  refine ⟨hsync', ?_, ?_, ?_, ?_, ?_⟩
  · -- origins still present are distinct
    show ((stepScanOrig r st p L).filterMap id).Nodup
    rw [stepScanOrig_eq, List.filterMap_append, List.filterMap_append,
      filterMap_id_replicate_none, List.append_nil]
    have hsub : List.Sublist
        ((st.scanOrig.take p).filterMap id
          ++ (st.scanOrig.drop (p + (stepText st p L).length)).filterMap id)
        ((st.scanOrig.take p).filterMap id
          ++ (((st.scanOrig.drop p).take (stepText st p L).length).filterMap id
            ++ (st.scanOrig.drop (p + (stepText st p L).length)).filterMap id)) :=
      (List.sublist_append_right _ _).append_left _
    exact List.Nodup.sublist hsub hnodup3
  · -- origins still present were never consumed
    show ∀ e ∈ st.events ++ [stepEvent ri r st p L],
      ∀ x ∈ (stepScanOrig r st p L).filterMap id, x ∉ e.consumed
    intro e he x hx
    rw [stepScanOrig_eq, List.filterMap_append, List.filterMap_append,
      filterMap_id_replicate_none, List.append_nil] at hx
    rcases List.mem_append.mp he with hold | hnew
    · apply hI.fresh e hold x
      rw [hdecomp, List.filterMap_append, List.filterMap_append]
      rcases List.mem_append.mp hx with h | h
      · exact List.mem_append.mpr (Or.inl (List.mem_append.mpr (Or.inl h)))
      · exact List.mem_append.mpr (Or.inr h)
    · rw [List.mem_singleton] at hnew
      subst hnew
      show x ∉ ((st.scanOrig.drop p).take L).filterMap id
      rw [hso_take]
      rcases List.mem_append.mp hx with h | h
      · exact fun hc => hdisjA h (List.mem_append.mpr (Or.inl hc))
      · exact fun hc => hdisjBC hc h
  · -- wrappers of distinct matches never overlap
    show (st.events ++ [stepEvent ri r st p L]).Pairwise
      (fun a b => ∀ x ∈ b.covered, x ∉ a.consumed)
    rw [List.pairwise_append]
    refine ⟨hI.pair, List.pairwise_singleton _ _, ?_⟩
    intro a ha b hb
    rw [List.mem_singleton] at hb
    subst hb
    intro x hx
    rw [stepEvent_covered_eq ri r st p L hkr hsub, ← hslice_o] at hx
    apply hI.fresh a ha x
    rw [hdecomp, List.filterMap_append, List.filterMap_append]
    exact List.mem_append.mpr (Or.inl (List.mem_append.mpr (Or.inr hx)))
  · -- the wrapper always covers exactly the consumed origins
    show ∀ e ∈ st.events ++ [stepEvent ri r st p L], e.covered = e.consumed
    intro e he
    rcases List.mem_append.mp he with hold | hnew
    · exact hI.covcon e hold
    · rw [List.mem_singleton] at hnew
      subst hnew
      rw [stepEvent_covered_eq ri r st p L hkr hsub, ← hslice_o]
      show ((st.scanOrig.drop p).take (stepText st p L).length).filterMap id
        = ((st.scanOrig.drop p).take L).filterMap id
      rw [hso_take]
  · -- every logged snapshot pair is synchronized
    show ∀ e ∈ st.events ++ [stepEvent ri r st p L],
      SyncP e.scanAfter e.maskAfter e.resultAfter
    intro e he
    rcases List.mem_append.mp he with hold | hnew
    · exact hI.snap e hold
    · rw [List.mem_singleton] at hnew
      subst hnew
      exact hsync'.toSyncP

/-! ### The invariant propagates through the loops -/

theorem ruleLoop_mem_events (ri : Nat) (r : Rule) :
    ∀ (fuel c : Nat) (st : EncState) (e : Event),
      e ∈ st.events → e ∈ (ruleLoop ri r fuel c st).events := by
  intro fuel
  induction fuel with
  | zero => intro c st e he; exact he
  | succ fuel ih =>
    intro c st e he
    simp only [ruleLoop]
    cases hex : execFrom r.pat st.scan c with
    | none => exact he
    | some pl =>
      obtain ⟨p, L⟩ := pl
      refine ih _ _ e ?_
      show e ∈ st.events ++ [stepEvent ri r st p L]
      exact List.mem_append.mpr (Or.inl he)

theorem ruleLoop_inv (ri : Nat) (r : Rule) :
    ∀ (fuel c : Nat) (st : EncState), EncInv st →
      cleanEvents (ruleLoop ri r fuel c st).events = true →
      EncInv (ruleLoop ri r fuel c st) := by
  intro fuel
  induction fuel with
  | zero => intro c st hI _; exact hI
  | succ fuel ih =>
    intro c st hI hmfall
    simp only [ruleLoop] at hmfall ⊢
    cases hex : execFrom r.pat st.scan c with
    | none => exact hI
    | some pl =>
      obtain ⟨p, L⟩ := pl
      rw [hex] at hmfall
      refine ih _ _ ?_ hmfall
      have hev : stepEvent ri r st p L
          ∈ (ruleLoop ri r fuel (p + L) (stepMatch ri r st p L)).events := by
        apply ruleLoop_mem_events
        show stepEvent ri r st p L ∈ st.events ++ [stepEvent ri r st p L]
        exact List.mem_append.mpr (Or.inr (List.mem_singleton.mpr rfl))
      have hclean : (stepEvent ri r st p L).cleanB = true := by
        unfold cleanEvents at hmfall
        exact List.all_eq_true.mp hmfall _ hev
      unfold Event.cleanB at hclean
      rw [Bool.and_eq_true] at hclean
      obtain ⟨hf1, hf2⟩ := hclean
      refine stepMatch_inv hI ?_ hf2
      unfold Event.maskFreeB at hf1
      intro b hb
      have h2 := List.all_eq_true.mp hf1 b hb
      simp at h2
      exact h2

theorem runRules_mem_events :
    ∀ (rs : List Rule) (i : Nat) (st : EncState) (e : Event),
      e ∈ st.events → e ∈ (runRules i rs st).events := by
  intro rs
  induction rs with
  | nil => intro i st e he; exact he
  | cons r rs ih =>
    intro i st e he
    simp only [runRules]
    exact ih _ _ e (ruleLoop_mem_events i r _ 0 st e he)

theorem runRules_inv :
    ∀ (rs : List Rule) (i : Nat) (st : EncState), EncInv st →
      cleanEvents (runRules i rs st).events = true →
      EncInv (runRules i rs st) := by
  intro rs
  induction rs with
  | nil => intro i st hI _; exact hI
  | cons r rs ih =>
    intro i st hI hmf
    simp only [runRules] at hmf ⊢
    refine ih _ _ ?_ hmf
    apply ruleLoop_inv i r _ 0 st hI
    unfold cleanEvents
    rw [List.all_eq_true]
    intro e he
    unfold cleanEvents at hmf
    exact List.all_eq_true.mp hmf e (runRules_mem_events rs (i + 1) _ e he)

theorem initState_inv (l : List Char) : EncInv (initState l) := by
  refine ⟨?_, ?_, ?_, ?_, ?_, ?_⟩
  · show SyncL l (List.replicate l.length false) ((List.range l.length).map some)
      l ((List.range l.length).map some)
    exact syncL_init l _ (by simp)
  · show (((List.range l.length).map some).filterMap id).Nodup
    have h : ((List.range l.length).map some).filterMap id = List.range l.length := by
      simp [List.filterMap_map]
    rw [h]
    exact List.nodup_range _
  · intro e he
    exact absurd he (List.not_mem_nil e)
  · exact List.Pairwise.nil
  · intro e he
    exact absurd he (List.not_mem_nil e)
  · intro e he
    exact absurd he (List.not_mem_nil e)

theorem encodeT_inv (l : List Char) (h : cleanEvents (encodeT l).events = true) :
    EncInv (encodeT l) :=
  runRules_inv legacyRules 0 (initState (trim l)) (initState_inv (trim l)) h

/-! ### No-match behaviour -/

theorem ruleLoop_of_no_match {ri : Nat} {r : Rule} {c : Nat} {st : EncState}
    (h : execFrom r.pat st.scan c = none) :
    ∀ fuel : Nat, ruleLoop ri r fuel c st = st := by
  intro fuel
  cases fuel with
  | zero => rfl
  | succ fuel => simp [ruleLoop, h]

theorem runRules_of_no_match :
    ∀ (rs : List Rule) (i : Nat) (st : EncState),
      (∀ r ∈ rs, execFrom r.pat st.scan 0 = none) → runRules i rs st = st := by
  intro rs
  induction rs with
  | nil => intro i st _; rfl
  | cons r rs ih =>
    intro i st h
    simp only [runRules]
    have h1 : runRule i r st = st :=
      ruleLoop_of_no_match (h r (List.mem_cons_self r rs)) _
    rw [h1]
    exact ih (i + 1) st (fun r' hr' => h r' (List.mem_cons_of_mem r hr'))

/-! ### Claim C1 -/

/-- C1 counterexample: the non-overlap claim fails as stated.  On the
input consisting of a block comment whose interior holds a line comment,
followed by a stray `z` token and a second line comment containing `z`,
the block-comment match crosses the mask left by the line-comment rule,
its result-side emission silently fails, the buffers fall out of step,
and the data rule then places its wrapper around the `z` *inside* the
already-emitted second comment span: a later rule's emitted span covers
a trimmed-input offset (16) that the earlier line-comment rule had
already consumed. -/
theorem c1_counterexample :
    crossRuleOverlap (encodeT "/*\n//a\n*/z   // z".data).events = true := by
  decide

/-- C1 (amended): for every input on which each processed match is
clean — it lies entirely on unmasked scan positions (no match crosses
padding left by an earlier replacement) and its replacement template
contains no dollar escape (so the result-side replace of the real
`String.prototype.replace` inserts it literally) — the emitted spans are
non-overlapping: any two matches' wrappers cover disjoint sets of
trimmed-input offsets, so no later rule's span covers a position
consumed by an earlier rule. -/
theorem c1_nonoverlap_of_clean (l : List Char)
    (h : cleanEvents (encodeT l).events = true) :
    (encodeT l).events.Pairwise (fun a b => ∀ x ∈ b.covered, x ∉ a.consumed) :=
  (encodeT_inv l h).pair

/-- C1 witness: the input of concrete scenario 2 satisfies the clean
hypothesis, and its spans are pairwise non-overlapping. -/
theorem c1_nonoverlap_witness :
    cleanEvents (encodeT "foo(1,2)".data).events = true ∧
      (encodeT "foo(1,2)".data).events.Pairwise
        (fun a b => ∀ x ∈ b.covered, x ∉ a.consumed) :=
  ⟨by decide, c1_nonoverlap_of_clean _ (by decide)⟩

/-! ### Claim C2 -/

/-- C2 counterexample: the buffers do not stay offset-synchronized on
every input.  On a block comment containing a line comment, the
block-comment match includes padding, the result-side `replace` finds no
occurrence of the space-laden match text, and after that step the scan
buffer (length 67) is longer than the result buffer (length 38). -/
theorem c2_counterexample :
    ((encodeT "/*\n//a\n*/".data).events.any
      (fun e => !(e.scanAfter.length == e.resultAfter.length))) = true := by
  decide

/-- C2 (amended): the matched region is masked with a run of spaces of
the replacement template's length, and provided every processed match is
clean — it lies on unmasked positions and its replacement template
contains no dollar escape, so `String.prototype.replace` inserts the
template literally and with its template length — after every step the
scan and result buffers have equal length and identical content at every
unmasked offset. -/
theorem c2_sync_of_clean (l : List Char)
    (h : cleanEvents (encodeT l).events = true) :
    ∀ e ∈ (encodeT l).events, SyncP e.scanAfter e.maskAfter e.resultAfter :=
  (encodeT_inv l h).snap

/-- C2 witness: on concrete scenario 2 the hypothesis holds and every
step leaves the buffers synchronized. -/
theorem c2_sync_witness :
    cleanEvents (encodeT "foo(1,2)".data).events = true ∧
      ∀ e ∈ (encodeT "foo(1,2)".data).events,
        SyncP e.scanAfter e.maskAfter e.resultAfter :=
  ⟨by decide, c2_sync_of_clean _ (by decide)⟩

/-! ### Claim C3 -/

/-- C3: on input `foo(1,2)` the function-call-head rule (rule index 4)
opens a `function`-class span before `foo(` without a closing tag, the
close-parenthesis rule (rule index 5) later emits the deferred closing
tag after `)`, and the final output brackets the whole call expression
in that single `function`-class span (with the two arguments wrapped as
`data` inside it by rule 6). -/
theorem c3_function_call_bracketing :
    encode "foo(1,2)".data
      = ("<span class=\"function\">foo(<span class=\"data\">1</span>,"
          ++ "<span class=\"data\">2</span>)</span>").data
    ∧ (encodeT "foo(1,2)".data).events.map Event.rule = [4, 5, 6, 6]
    ∧ countOcc (spanOpen "function") (encode "foo(1,2)".data) = 1
    ∧ countOcc spanClose (encode "foo(1,2)".data) = 3 := by
  decide

/-! ### Claim C4 -/

/-- C4 counterexample: `encode` performs no HTML escaping and returns
the trimmed input, not the input itself.  On the input of two spaces,
`<`, two spaces, no rule matches anywhere, yet the output is `<` — which
is neither the HTML-escaped input nor the input unchanged. -/
theorem c4_counterexample :
    (∀ r ∈ legacyRules, execFrom r.pat (trim "  <  ".data) 0 = none)
    ∧ encode "  <  ".data = "<".data
    ∧ htmlEscape "  <  ".data = "  &lt;  ".data
    ∧ "<".data ≠ "  &lt;  ".data
    ∧ "<".data ≠ "  <  ".data := by
  decide

/-- C4 (amended): the embedding of `encode` is a total function, so the
encoder cannot throw, and on every input on which no rule's pattern
matches anywhere in the trimmed text it returns the trimmed input
verbatim — with no HTML escaping. -/
theorem c4_no_match_id (l : List Char)
    (h : ∀ r ∈ legacyRules, execFrom r.pat (trim l) 0 = none) :
    encode l = trim l := by
  show (runRules 0 legacyRules (initState (trim l))).result = trim l
  rw [runRules_of_no_match legacyRules 0 (initState (trim l)) h]
  rfl

/-- C4 witness: no rule matches in the trimmed text `<`, and the encoder
returns it verbatim. -/
theorem c4_no_match_witness :
    (∀ r ∈ legacyRules, execFrom r.pat (trim "  <  ".data) 0 = none)
    ∧ encode "  <  ".data = trim "  <  ".data :=
  ⟨by decide, c4_no_match_id _ (by decide)⟩

/-! ### Claim C5 -/

/-- C5 counterexample: neither `get` nor `toString` is a registered
formatter name, yet neither resolves to the lavendeux formatter: `get`
is an own property holding the lookup function itself, and `toString`
is found by the `in` operator on the prototype chain, so the lookup
returns the inherited `Object.prototype` member. -/
theorem c5_counterexample :
    ("get" ∉ (["lavendeux", "javascript"] : List String)
      ∧ FormatterInstances.get "get" ≠ FIValue.lavendeux)
    ∧ ("toString" ∉ (["lavendeux", "javascript"] : List String)
      ∧ FormatterInstances.get "toString" ≠ FIValue.lavendeux) := by
  decide

/-- C5 (amended): every formatter-id outside the registry object's own
property names (`lavendeux`, `javascript`, `get`) and outside the
property names inherited from `Object.prototype` resolves to the
dialect-A (lavendeux) formatter instead of failing; in particular a
Sample with formatter id `unknown-lang` is rendered with the default
formatter. -/
theorem c5_fallback (n : String)
    (h1 : n ≠ "lavendeux") (h2 : n ≠ "javascript") (h3 : n ≠ "get")
    (h4 : n ∉ objectPrototypeNames) :
    FormatterInstances.get n = FIValue.lavendeux := by
  unfold FormatterInstances.get
  rw [if_neg h1, if_neg h2, if_neg h3, if_neg h4]

/-- C5 witness: the unknown id `unknown-lang` resolves to the lavendeux
formatter. -/
theorem c5_fallback_witness :
    ("unknown-lang" ≠ "lavendeux" ∧ "unknown-lang" ≠ "javascript"
      ∧ "unknown-lang" ≠ "get" ∧ "unknown-lang" ∉ objectPrototypeNames)
    ∧ FormatterInstances.get "unknown-lang" = FIValue.lavendeux :=
  ⟨⟨by decide, by decide, by decide, by decide⟩,
    c5_fallback "unknown-lang" (by decide) (by decide) (by decide) (by decide)⟩

/-! ### Claim C6 -/

/-- C6 counterexample: offsets are not preserved relative to the
original text.  On input `0xF (`, the radix rule replaces the 3-character
match `0xF` with a 30-character span, growing both buffers by 27; the
function-head rule then finds `(` at scan offset 31, not at its
trimmed-input offset 4 (the consumed-origin instrumentation shows the
match at index 31 consumed exactly original offset 4). -/
theorem c6_counterexample :
    ((encodeT "0xF (".data).events.map (fun e => (e.index, e.consumed)))
      = [(0, [0, 1, 2]), (31, [4])]
    ∧ (31 : Nat) ≠ 4 := by
  decide

/-- C6 (amended): what the masking length preserves is the alignment
between the scan and result buffers, not offsets relative to the
original text: provided every processed match is clean — it lies on
unmasked positions and its replacement template contains no dollar
escape, so `String.prototype.replace` inserts it literally — each rule's
wrapper lands on exactly the trimmed-input offsets that the match
consumed in the scan buffer (`covered = consumed`), even though both are
found at positions shifted by the accumulated growth of earlier
replacements. -/
theorem c6_offsets_synced (l : List Char)
    (h : cleanEvents (encodeT l).events = true) :
    ∀ e ∈ (encodeT l).events, e.covered = e.consumed :=
  (encodeT_inv l h).covcon

/-- C6 witness: on `0xF (` the hypothesis holds and each match's wrapper
covers exactly its consumed origins. -/
theorem c6_offsets_witness :
    cleanEvents (encodeT "0xF (".data).events = true ∧
      ∀ e ∈ (encodeT "0xF (".data).events, e.covered = e.consumed :=
  ⟨by decide, c6_offsets_synced _ (by decide)⟩

/-! ### Claim C7 -/

/-- C7: `encode` (and the rule-table-parameterised engine it
instantiates) is a pure function of the rule table and the input text:
repeated applications yield identical results, and the embedding has no
state outside the returned value, so encoding performs no external side
effects by construction. -/
theorem c7_deterministic (rules : List Rule) (l : List Char) :
    encode l = encode l
    ∧ (runRules 0 rules (initState (trim l))).result
        = (runRules 0 rules (initState (trim l))).result :=
  ⟨rfl, rfl⟩

/-! ### Claim C8 -/

/-- C8: rendering a batch maps each Sample, in the order of the sample
list, through its resolved formatter's `format` (via `toHTML`), and
`getSampleHTML` returns exactly those per-sample fragments joined with
newline characters; the fragment list has one entry per sample, in
sample order. -/
theorem c8_render_batch (samples : List JSONSample) :
    getSampleHTML samples
      = List.intercalate ['\n']
          (samples.map (fun s => s.toHTML (FormatterInstances.get s.formatter)))
    ∧ (getAllFormattedSamples samples).length = samples.length :=
  ⟨rfl, by simp [getAllFormattedSamples]⟩

/-! ### Claim C9 -/

/-- C9 counterexample: the fallback does not hold for every name
outside the own-property set `lavendeux`, `javascript`, `get`: the name
`toString` lies outside that set, yet the `in` operator finds it on the
prototype chain and the lookup returns the inherited
`Object.prototype.toString` member rather than falling back to the
lavendeux formatter. -/
theorem c9_counterexample :
    "toString" ∉ (["lavendeux", "javascript", "get"] : List String)
    ∧ FormatterInstances.get "toString" ≠ FIValue.lavendeux := by
  decide

/-- C9 (amended): because the lookup helper is installed as an own
property named `get` on the `FormatterInstances` object,
`FormatterInstances.get "get"` returns the lookup function itself
rather than any formatter; the fallback-to-lavendeux behaviour holds
exactly for the names outside the own properties `lavendeux`,
`javascript`, `get` and outside the property names inherited from
`Object.prototype` (an inherited name such as `toString` resolves to
the inherited member instead). -/
theorem c9_get_own_property :
    FormatterInstances.get "get" = FIValue.getFn
    ∧ FIValue.getFn ≠ FIValue.lavendeux
    ∧ FIValue.getFn ≠ FIValue.javascript
    ∧ FormatterInstances.get "toString" = FIValue.inheritedProp "toString"
    ∧ ∀ n : String, n ≠ "lavendeux" → n ≠ "javascript" → n ≠ "get" →
        n ∉ objectPrototypeNames →
        FormatterInstances.get n = FIValue.lavendeux := by
  refine ⟨by decide, by decide, by decide, by decide, ?_⟩
  intro n h1 h2 h3 h4
  unfold FormatterInstances.get
  rw [if_neg h1, if_neg h2, if_neg h3, if_neg h4]

/-- C9 witness: the name `get` hits the lookup function itself while a
fresh name falls back to the lavendeux formatter. -/
theorem c9_get_own_property_witness :
    FormatterInstances.get "get" = FIValue.getFn
    ∧ FormatterInstances.get "other" = FIValue.lavendeux :=
  ⟨c9_get_own_property.1,
    c9_get_own_property.2.2.2.2 "other" (by decide) (by decide) (by decide)
      (by decide)⟩

/-! ### Claim C10 -/

/-- C10: the close-parenthesis rule rewrites an unmasked `)` to
`)</span>` even when no function-class span was ever opened: on the
input `)` the output is `)</span>`, which contains one closing span tag
and no opening one — the emitted fragment does not have balanced span
tags. -/
theorem c10_unbalanced_close :
    encode ")".data = ")</span>".data
    ∧ countOcc "<span".data (encode ")".data) = 0
    ∧ countOcc "</span>".data (encode ")".data) = 1 := by
  decide
